import Mathlib

/-!
# truck: a UDP-to-Elasticsearch log shipper

A shallow embedding of `truck.go` and a verification of its specification.

* Go `string` and `[]byte` are byte sequences (`GoString`).
* `interface{}` values are `GoValue`; a `map[string]interface{}` is `GoMap`, where `none`
  is the nil map and `some kvs` an allocated map with distinct keys.
* A run-time panic is the `panic` result of the function that raises it.
* The wall clock, the HTTP client and `json.Marshal` are inputs of the functions that use them.
-/

namespace Truck

/-! ## Strings and bytes -/

abbrev Byte := UInt8

/-- A Go `string` (and a `[]byte`): a sequence of bytes. -/
abbrev GoString := List Byte

/-- Go `utf8.EncodeRune`: the UTF-8 encoding of a code point; surrogates and values above
U+10FFFF are encoded as U+FFFD. -/
def encodeRune (r : Nat) : List Byte :=
  if r < 0x80 then [UInt8.ofNat r]
  else if r < 0x800 then [UInt8.ofNat (0xC0 + r / 64), UInt8.ofNat (0x80 + r % 64)]
  else if 0x10FFFF < r ∨ (0xD800 ≤ r ∧ r ≤ 0xDFFF) then [0xEF, 0xBF, 0xBD]
  else if r < 0x10000 then
    [UInt8.ofNat (0xE0 + r / 4096), UInt8.ofNat (0x80 + r / 64 % 64), UInt8.ofNat (0x80 + r % 64)]
  else
    [UInt8.ofNat (0xF0 + r / 262144), UInt8.ofNat (0x80 + r / 4096 % 64),
      UInt8.ofNat (0x80 + r / 64 % 64), UInt8.ofNat (0x80 + r % 64)]

/-- A string constant of the source, as its UTF-8 bytes. -/
def str (s : String) : GoString := s.toList.flatMap (fun c => encodeRune c.toNat)

/-- The byte of an ASCII character. -/
def ch (c : Char) : Byte := UInt8.ofNat c.toNat

/-- The byte `:`. -/
def colon : Byte := 0x3A

/-- A run-time panic of the Go program. -/
inductive Panic where
  | indexOutOfRange
  | nilMapAssign
  deriving DecidableEq

deriving instance DecidableEq for Except

/-! ## `parseHost` -/

/-- Go `strings.Split(s, sep)` for a one-byte separator: the pieces of `s` between the
occurrences of `sep`, in order; one more piece than there are separators. -/
def Split (sep : Byte) : GoString → List GoString
  | [] => [[]]
  | c :: cs =>
    if c = sep then [] :: Split sep cs
    else
      match Split sep cs with
      | [] => [[c]]
      | piece :: pieces => (c :: piece) :: pieces

/-- Go `parseHost`: `strings.Split(s, ":")[0]`; the index expression panics when the slice
is empty. -/
def parseHost (s : GoString) : Except Panic GoString :=
  match (Split colon s)[0]? with
  | none => .error .indexOutOfRange
  | some h => .ok h


/-! ## The clock and `time.Format` -/

/-- A reading of the wall clock (`time.Now()`), as the civil date and time the `time`
package computes from it in the local zone; `offset` is the zone's offset east of UTC in
seconds. -/
structure Time where
  year : Int
  month : Nat
  day : Nat
  hour : Nat
  minute : Nat
  second : Nat
  offset : Int
  deriving DecidableEq

/-- The ASCII digit of `d`. -/
def digit (d : Nat) : Byte := UInt8.ofNat (48 + d)

/-- The number of iterations of `for u2 := u; u2 > 0; u2 /= 10`; the first argument bounds
the number of iterations and `u` itself is enough. -/
def countDigits : Nat → Nat → Nat
  | 0, _ => 0
  | fuel + 1, u => if u = 0 then 0 else countDigits fuel (u / 10) + 1

/-- The `n` low-order decimal digits of `u`, most significant first. -/
def printDigits : Nat → Nat → List Byte
  | 0, _ => []
  | n + 1, u => printDigits n (u / 10) ++ [digit (u % 10)]

/-- Go `time.appendInt(b, x, width)`: a minus sign for a negative `x`, then the decimal
digits of `|x|`, padded on the left with zeros to at least `width` digits. -/
def appendInt (x : Int) (width : Nat) : List Byte :=
  let u := x.natAbs
  let n := if u = 0 then 1 else countDigits u u
  (if x < 0 then [ch '-'] else []) ++ List.replicate (width - n) (ch '0') ++ printDigits n u

/-- The two layouts the program formats with. -/
inductive Layout where
  /-- `time.RFC3339`, the layout `2006-01-02T15:04:05Z07:00`. -/
  | RFC3339
  /-- The layout `2006.01.02`. -/
  | dotDate
  deriving DecidableEq

/-- The zone of the layout element `Z07:00`: `Z` for UTC, else sign, hours and minutes.
Go's integer division truncates towards zero. -/
def formatZone (offset : Int) : List Byte :=
  if offset = 0 then [ch 'Z']
  else
    let zone := Int.tdiv offset 60
    let sign := if zone < 0 then ch '-' else ch '+'
    let zone := zone.natAbs
    [sign] ++ appendInt (zone / 60 : Nat) 2 ++ [colon] ++ appendInt (zone % 60 : Nat) 2

/-- Go `Time.Format(layout)` for the program's two layouts. -/
def Time.Format (t : Time) : Layout → GoString
  | .dotDate =>
    appendInt t.year 4 ++ [ch '.'] ++ appendInt t.month 2 ++ [ch '.'] ++ appendInt t.day 2
  | .RFC3339 =>
    appendInt t.year 4 ++ [ch '-'] ++ appendInt t.month 2 ++ [ch '-'] ++ appendInt t.day 2
      ++ [ch 'T'] ++ appendInt t.hour 2 ++ [colon] ++ appendInt t.minute 2 ++ [colon]
      ++ appendInt t.second 2 ++ formatZone t.offset

/-- Go `currentIndex`, at the clock reading `now`:
`fmt.Sprintf("logstash-%s", time.Now().Format("2006.01.02"))`. -/
def currentIndex (now : Time) : GoString := str "logstash-" ++ now.Format .dotDate

/-- The date in the spec's words: a 4-digit year, `.`, a 2-digit month, `.`, a 2-digit day. -/
def specDate (year month day : Nat) : GoString :=
  [digit (year / 1000 % 10), digit (year / 100 % 10), digit (year / 10 % 10), digit (year % 10),
    ch '.', digit (month / 10 % 10), digit (month % 10),
    ch '.', digit (day / 10 % 10), digit (day % 10)]

/-- A clock reading as the wall clock gives it: a year of at most four digits, a month, day,
hour, minute and second in their civil ranges, and a zone offset of whole minutes within a
day of UTC. -/
def Time.Civil (t : Time) : Prop :=
  0 ≤ t.year ∧ t.year ≤ 9999 ∧ t.month ≤ 12 ∧ t.day ≤ 31 ∧ t.hour ≤ 23 ∧ t.minute ≤ 59 ∧
    t.second ≤ 59 ∧ -86400 < t.offset ∧ t.offset < 86400 ∧ t.offset % 60 = 0

instance (t : Time) : Decidable t.Civil := by
  unfold Time.Civil
  infer_instance

/-- The zone of an RFC 3339 timestamp in the spec's words: `Z` for UTC, else the sign of the
offset, its hours as two digits, `:`, and its minutes as two digits. -/
def specZone (offset : Int) : GoString :=
  if offset = 0 then [ch 'Z']
  else
    [if offset < 0 then ch '-' else ch '+',
      digit (offset.natAbs / 3600 / 10 % 10), digit (offset.natAbs / 3600 % 10), colon,
      digit (offset.natAbs / 60 % 60 / 10 % 10), digit (offset.natAbs / 60 % 60 % 10)]

/-- The RFC 3339 timestamp in the spec's words: `YYYY-MM-DDTHH:MM:SS` with zero-padded
fields, followed by the zone. -/
def specRFC3339 (year month day hour minute second : Nat) (offset : Int) : GoString :=
  [digit (year / 1000 % 10), digit (year / 100 % 10), digit (year / 10 % 10), digit (year % 10),
    ch '-', digit (month / 10 % 10), digit (month % 10),
    ch '-', digit (day / 10 % 10), digit (day % 10),
    ch 'T', digit (hour / 10 % 10), digit (hour % 10),
    colon, digit (minute / 10 % 10), digit (minute % 10),
    colon, digit (second / 10 % 10), digit (second % 10)] ++ specZone offset

/-- The clock reading 2024-01-01T12:30:05Z. -/
def newYear2024 : Time :=
  { year := 2024, month := 1, day := 1, hour := 12, minute := 30, second := 5, offset := 0 }

/-- The clock reading 2024-07-09T08:05:00 in a zone one hour east of UTC. -/
def summerEast : Time :=
  { year := 2024, month := 7, day := 9, hour := 8, minute := 5, second := 0, offset := 3600 }

/-- The clock reading 2024-07-09T08:05:00 in a zone five and a half hours west of UTC. -/
def summerWest : Time :=
  { year := 2024, month := 7, day := 9, hour := 8, minute := 5, second := 0, offset := -19800 }

/-! ## Go values and maps -/

/-- A value of type `interface{}`, as far as the program builds them: the results of
decoding JSON (nil, bool, float64, string, slice, map) and the `int` it stores itself.
A `float64` is kept as the number literal it was parsed from. -/
inductive GoValue where
  | nil
  | bool (b : Bool)
  | float64 (lit : GoString)
  | int (n : Int)
  | string (s : GoString)
  | slice (xs : List GoValue)
  | map (m : List (GoString × GoValue))

/-- The entries of an allocated `map[string]interface{}`; keys are distinct. -/
abbrev Entries := List (GoString × GoValue)

/-- A `map[string]interface{}`: `none` is the nil map. -/
abbrev GoMap := Option Entries

/-- The assignment `m[k] = v` on an allocated map: replaces the value of `k` or adds `k`. -/
def mapSet : Entries → GoString → GoValue → Entries
  | [], k, v => [(k, v)]
  | (k', v') :: rest, k, v => if k' = k then (k, v) :: rest else (k', v') :: mapSet rest k v

/-- The lookup `m[k]` with its presence flag. -/
def mapGet : Entries → GoString → Option GoValue
  | [], _ => none
  | (k', v') :: rest, k => if k' = k then some v' else mapGet rest k

/-- The keys of a map. -/
def mapKeys (m : Entries) : List GoString := m.map Prod.fst

/-- The statement `m[k] = v`: a panic when `m` is the nil map. -/
def mapAssign (m : GoMap) (k : GoString) (v : GoValue) : Except Panic GoMap :=
  match m with
  | none => .error .nilMapAssign
  | some kvs => .ok (some (mapSet kvs k v))

/-! ## `encoding/json`: the scanner

The syntax checker of `encoding/json` (`scanner.go`): a state machine that reads one byte
at a time. `Step` names its step functions, `ParseState` the entries of the stack of open
objects and arrays, `ScanOp` the opcodes a step returns. -/

inductive Step where
  | beginValueOrEmpty | beginValue | beginStringOrEmpty | beginString | endValue | endTop
  | inString | inStringEsc | inStringEscU | inStringEscU1 | inStringEscU12 | inStringEscU123
  | neg | one | zero | dot | dot0 | expE | expESign | expE0
  | litT | litTr | litTru | litF | litFa | litFal | litFals | litN | litNu | litNul
  | stateError
  deriving DecidableEq

inductive ParseState where
  | parseObjectKey
  | parseObjectValue
  | parseArrayValue
  deriving DecidableEq

inductive ScanOp where
  | scanContinue | scanBeginLiteral | scanBeginObject | scanObjectKey | scanObjectValue
  | scanEndObject | scanBeginArray | scanArrayValue | scanEndArray | scanSkipSpace
  | scanEnd | scanError
  deriving DecidableEq

/-- The scanner: the current step function, the stack of open composite values (innermost
first), whether an error was recorded, and whether the top-level value has ended. -/
structure Scanner where
  step : Step
  parseState : List ParseState
  err : Bool
  endTop : Bool
  deriving DecidableEq

/-- The limit on the nesting of arrays and objects. -/
def maxNestingDepth : Nat := 10000

/-- Go `scanner.reset`. -/
def Scanner.reset : Scanner :=
  { step := .beginValue, parseState := [], err := false, endTop := false }

/-- Go `scanner.error`: records the error; every later step returns `scanError`. -/
def Scanner.error (s : Scanner) : Scanner × ScanOp :=
  ({ s with step := .stateError, err := true }, .scanError)

/-- Go `scanner.pushParseState`. -/
def Scanner.pushParseState (s : Scanner) (newParseState : ParseState) (successState : ScanOp) :
    Scanner × ScanOp :=
  let s := { s with parseState := newParseState :: s.parseState }
  if s.parseState.length ≤ maxNestingDepth then (s, successState) else s.error

/-- Go `scanner.popParseState`. -/
def Scanner.popParseState (s : Scanner) : Scanner :=
  let rest := s.parseState.tail
  if rest.length = 0 then { s with parseState := rest, step := .endTop, endTop := true }
  else { s with parseState := rest, step := .endValue }

/-- Go `isSpace`. -/
def isSpace (c : Byte) : Bool := c = 0x20 || c = 0x09 || c = 0x0D || c = 0x0A

/-- Whether `c` is an ASCII decimal digit. -/
def isDigit (c : Byte) : Bool := decide (0x30 ≤ c) && decide (c ≤ 0x39)

/-- Whether `c` is a hexadecimal digit. -/
def isHex (c : Byte) : Bool :=
  isDigit c || (decide (0x61 ≤ c) && decide (c ≤ 0x66)) || (decide (0x41 ≤ c) && decide (c ≤ 0x46))

/-- Go `stateEndTop`: after the top-level value only space may follow; the error for another
byte is recorded and reported at the next step. -/
def stateEndTop (s : Scanner) (c : Byte) : Scanner × ScanOp :=
  if !isSpace c then ((s.error).1, .scanEnd) else (s, .scanEnd)

/-- Go `stateEndValue`: the byte after a value. -/
def stateEndValue (s : Scanner) (c : Byte) : Scanner × ScanOp :=
  match s.parseState with
  | [] => stateEndTop { s with step := .endTop, endTop := true } c
  | ps :: rest =>
    if isSpace c then ({ s with step := .endValue }, .scanSkipSpace)
    else
      match ps with
      | .parseObjectKey =>
        if c = 0x3A then
          ({ s with parseState := .parseObjectValue :: rest, step := .beginValue }, .scanObjectKey)
        else s.error
      | .parseObjectValue =>
        if c = 0x2C then
          ({ s with parseState := .parseObjectKey :: rest, step := .beginString },
            .scanObjectValue)
        else if c = 0x7D then (s.popParseState, .scanEndObject)
        else s.error
      | .parseArrayValue =>
        if c = 0x2C then ({ s with step := .beginValue }, .scanArrayValue)
        else if c = 0x5D then (s.popParseState, .scanEndArray)
        else s.error

/-- Go `stateBeginValue`: the first byte of a value. -/
def stateBeginValue (s : Scanner) (c : Byte) : Scanner × ScanOp :=
  if isSpace c then (s, .scanSkipSpace)
  else if c = 0x7B then
    Scanner.pushParseState { s with step := .beginStringOrEmpty } .parseObjectKey .scanBeginObject
  else if c = 0x5B then
    Scanner.pushParseState { s with step := .beginValueOrEmpty } .parseArrayValue .scanBeginArray
  else if c = 0x22 then ({ s with step := .inString }, .scanBeginLiteral)
  else if c = ch '-' then ({ s with step := .neg }, .scanBeginLiteral)
  else if c = ch '0' then ({ s with step := .zero }, .scanBeginLiteral)
  else if c = ch 't' then ({ s with step := .litT }, .scanBeginLiteral)
  else if c = ch 'f' then ({ s with step := .litF }, .scanBeginLiteral)
  else if c = ch 'n' then ({ s with step := .litN }, .scanBeginLiteral)
  else if decide (ch '1' ≤ c) && decide (c ≤ ch '9') then
    ({ s with step := .one }, .scanBeginLiteral)
  else s.error

/-- Go `stateBeginValueOrEmpty`: after `[`. -/
def stateBeginValueOrEmpty (s : Scanner) (c : Byte) : Scanner × ScanOp :=
  if isSpace c then (s, .scanSkipSpace)
  else if c = 0x5D then stateEndValue s c
  else stateBeginValue s c

/-- Go `stateBeginString`: after `,` in an object. -/
def stateBeginString (s : Scanner) (c : Byte) : Scanner × ScanOp :=
  if isSpace c then (s, .scanSkipSpace)
  else if c = 0x22 then ({ s with step := .inString }, .scanBeginLiteral)
  else s.error

/-- Go `stateBeginStringOrEmpty`: after `{`. -/
def stateBeginStringOrEmpty (s : Scanner) (c : Byte) : Scanner × ScanOp :=
  if isSpace c then (s, .scanSkipSpace)
  else if c = 0x7D then
    stateEndValue { s with parseState := .parseObjectValue :: s.parseState.tail } c
  else stateBeginString s c

/-- Go `stateInString`. -/
def stateInString (s : Scanner) (c : Byte) : Scanner × ScanOp :=
  if c = 0x22 then ({ s with step := .endValue }, .scanContinue)
  else if c = 0x5C then ({ s with step := .inStringEsc }, .scanContinue)
  else if c < 0x20 then s.error
  else (s, .scanContinue)

/-- Go `stateInStringEsc`: after a backslash in a string. -/
def stateInStringEsc (s : Scanner) (c : Byte) : Scanner × ScanOp :=
  if c = ch 'b' ∨ c = ch 'f' ∨ c = ch 'n' ∨ c = ch 'r' ∨ c = ch 't' ∨ c = 0x5C ∨ c = ch '/'
      ∨ c = 0x22 then
    ({ s with step := .inString }, .scanContinue)
  else if c = ch 'u' then ({ s with step := .inStringEscU }, .scanContinue)
  else s.error

/-- The four steps after `\u`: a hexadecimal digit moves on to `next`. -/
def stateHex (s : Scanner) (c : Byte) (next : Step) : Scanner × ScanOp :=
  if isHex c then ({ s with step := next }, .scanContinue) else s.error

/-- Go `state0`: after `0` or the integer part of a number. -/
def state0 (s : Scanner) (c : Byte) : Scanner × ScanOp :=
  if c = ch '.' then ({ s with step := .dot }, .scanContinue)
  else if c = ch 'e' ∨ c = ch 'E' then ({ s with step := .expE }, .scanContinue)
  else stateEndValue s c

/-- Go `state1`: inside the integer part of a number. -/
def state1 (s : Scanner) (c : Byte) : Scanner × ScanOp :=
  if isDigit c then ({ s with step := .one }, .scanContinue) else state0 s c

/-- Go `stateNeg`: after `-`. -/
def stateNeg (s : Scanner) (c : Byte) : Scanner × ScanOp :=
  if c = ch '0' then ({ s with step := .zero }, .scanContinue)
  else if decide (ch '1' ≤ c) && decide (c ≤ ch '9') then ({ s with step := .one }, .scanContinue)
  else s.error

/-- Go `stateDot`: after the decimal point. -/
def stateDot (s : Scanner) (c : Byte) : Scanner × ScanOp :=
  if isDigit c then ({ s with step := .dot0 }, .scanContinue) else s.error

/-- Go `stateDot0`: inside the fraction. -/
def stateDot0 (s : Scanner) (c : Byte) : Scanner × ScanOp :=
  if isDigit c then (s, .scanContinue)
  else if c = ch 'e' ∨ c = ch 'E' then ({ s with step := .expE }, .scanContinue)
  else stateEndValue s c

/-- Go `stateESign`: after `e` and an optional sign. -/
def stateESign (s : Scanner) (c : Byte) : Scanner × ScanOp :=
  if isDigit c then ({ s with step := .expE0 }, .scanContinue) else s.error

/-- Go `stateE`: after `e`. -/
def stateE (s : Scanner) (c : Byte) : Scanner × ScanOp :=
  if c = ch '+' ∨ c = ch '-' then ({ s with step := .expESign }, .scanContinue)
  else stateESign s c

/-- Go `stateE0`: inside the exponent. -/
def stateE0 (s : Scanner) (c : Byte) : Scanner × ScanOp :=
  if isDigit c then (s, .scanContinue) else stateEndValue s c

/-- The steps inside `true`, `false` and `null`: the byte `want` moves on to `next`. -/
def stateLit (s : Scanner) (c : Byte) (want : Byte) (next : Step) : Scanner × ScanOp :=
  if c = want then ({ s with step := next }, .scanContinue) else s.error

/-- One step of the scanner, `s.step(s, c)`: the call of the current step function. -/
def Scanner.next (s : Scanner) (c : Byte) : Scanner × ScanOp :=
  match s.step with
  | .beginValueOrEmpty => stateBeginValueOrEmpty s c
  | .beginValue => stateBeginValue s c
  | .beginStringOrEmpty => stateBeginStringOrEmpty s c
  | .beginString => stateBeginString s c
  | .endValue => stateEndValue s c
  | .endTop => stateEndTop s c
  | .inString => stateInString s c
  | .inStringEsc => stateInStringEsc s c
  | .inStringEscU => stateHex s c .inStringEscU1
  | .inStringEscU1 => stateHex s c .inStringEscU12
  | .inStringEscU12 => stateHex s c .inStringEscU123
  | .inStringEscU123 => stateHex s c .inString
  | .neg => stateNeg s c
  | .one => state1 s c
  | .zero => state0 s c
  | .dot => stateDot s c
  | .dot0 => stateDot0 s c
  | .expE => stateE s c
  | .expESign => stateESign s c
  | .expE0 => stateE0 s c
  | .litT => stateLit s c (ch 'r') .litTr
  | .litTr => stateLit s c (ch 'u') .litTru
  | .litTru => stateLit s c (ch 'e') .endValue
  | .litF => stateLit s c (ch 'a') .litFa
  | .litFa => stateLit s c (ch 'l') .litFal
  | .litFal => stateLit s c (ch 's') .litFals
  | .litFals => stateLit s c (ch 'e') .endValue
  | .litN => stateLit s c (ch 'u') .litNu
  | .litNu => stateLit s c (ch 'l') .litNul
  | .litNul => stateLit s c (ch 'l') .endValue
  | .stateError => (s, .scanError)

/-- Go `scanner.eof`: the end of the input. -/
def Scanner.eof (s : Scanner) : Scanner × ScanOp :=
  if s.err then (s, .scanError)
  else if s.endTop then (s, .scanEnd)
  else
    let s := (s.next 0x20).1
    if s.endTop then (s, .scanEnd)
    else ({ s with err := true }, .scanError)

/-- The loop of Go `checkValid`: steps through the bytes and stops at the first error. -/
def checkValidLoop (s : Scanner) : List Byte → Option Scanner
  | [] => some s
  | c :: cs =>
    match s.next c with
    | (_, .scanError) => none
    | (s, _) => checkValidLoop s cs

/-- Go `checkValid`: whether `data` is one well-formed JSON value. -/
def checkValid (data : List Byte) : Bool :=
  match checkValidLoop Scanner.reset data with
  | none => false
  | some s => decide ((s.eof).2 ≠ .scanError)

/-! ## `encoding/json`: literals -/

/-- The code point U+FFFD, `utf8.RuneError` and `unicode.ReplacementChar`. -/
def runeError : Nat := 0xFFFD

/-- Go `utf8.DecodeRune`: the first code point of `p` and its width in bytes; an invalid
encoding gives `(RuneError, 1)`. -/
def decodeRune (p : List Byte) : Nat × Nat :=
  match p with
  | [] => (runeError, 0)
  | p0 :: rest =>
    let b0 := p0.toNat
    if b0 < 0x80 then (b0, 1)
    else if b0 < 0xC2 ∨ 0xF4 < b0 then (runeError, 1)
    else
      let sz := if b0 < 0xE0 then 2 else if b0 < 0xF0 then 3 else 4
      let lo := if b0 = 0xE0 then 0xA0 else if b0 = 0xF0 then 0x90 else 0x80
      let hi := if b0 = 0xED then 0x9F else if b0 = 0xF4 then 0x8F else 0xBF
      if p.length < sz then (runeError, 1)
      else
        let b1 := (rest.getD 0 0).toNat
        let b2 := (rest.getD 1 0).toNat
        let b3 := (rest.getD 2 0).toNat
        if b1 < lo ∨ hi < b1 then (runeError, 1)
        else if sz = 2 then (b0 % 32 * 64 + b1 % 64, 2)
        else if b2 < 0x80 ∨ 0xBF < b2 then (runeError, 1)
        else if sz = 3 then (b0 % 16 * 4096 + b1 % 64 * 64 + b2 % 64, 3)
        else if b3 < 0x80 ∨ 0xBF < b3 then (runeError, 1)
        else (b0 % 8 * 262144 + b1 % 64 * 4096 + b2 % 64 * 64 + b3 % 64, 4)

/-- The value of a hexadecimal digit. -/
def hexValue (c : Byte) : Option Nat :=
  if isDigit c then some (c.toNat - 0x30)
  else if 0x61 ≤ c ∧ c ≤ 0x66 then some (c.toNat - 0x61 + 10)
  else if 0x41 ≤ c ∧ c ≤ 0x46 then some (c.toNat - 0x41 + 10)
  else none

/-- Go `getu4`: the code unit of a `\uXXXX` escape at the start of `s`; `none` is Go's -1. -/
def getu4 (s : List Byte) : Option Nat :=
  match s with
  | b :: u :: h1 :: h2 :: h3 :: h4 :: _ =>
    if b = 0x5C ∧ u = ch 'u' then
      match hexValue h1, hexValue h2, hexValue h3, hexValue h4 with
      | some a, some b, some c, some d => some (((a * 16 + b) * 16 + c) * 16 + d)
      | _, _, _, _ => none
    else none
  | _ => none

/-- Go `utf16.DecodeRune`: the code point of a surrogate pair, U+FFFD when it is not one. -/
def utf16DecodeRune (r1 : Nat) (r2 : Option Nat) : Nat :=
  match r2 with
  | some r2 =>
    if 0xD800 ≤ r1 ∧ r1 < 0xDC00 ∧ 0xDC00 ≤ r2 ∧ r2 < 0xE000 then
      (r1 - 0xD800) * 1024 + (r2 - 0xDC00) + 0x10000
    else runeError
  | none => runeError

/-- One round of the loop of Go `unquoteBytes` at the byte `c` followed by `rest`: the bytes
written and the number of bytes read; `none` when the string is malformed. -/
def unquoteAt (c : Byte) (rest : List Byte) : Option (List Byte × Nat) :=
  if c = 0x5C then
    match rest with
    | [] => none
    | e :: _ =>
      if e = 0x22 ∨ e = 0x5C ∨ e = ch '/' ∨ e = 0x27 then some ([e], 2)
      else if e = ch 'b' then some ([0x08], 2)
      else if e = ch 'f' then some ([0x0C], 2)
      else if e = ch 'n' then some ([0x0A], 2)
      else if e = ch 'r' then some ([0x0D], 2)
      else if e = ch 't' then some ([0x09], 2)
      else if e = ch 'u' then
        match getu4 (c :: rest) with
        | none => none
        | some rr =>
          if 0xD800 ≤ rr ∧ rr < 0xE000 then
            let dec := utf16DecodeRune rr (getu4 ((c :: rest).drop 6))
            if dec ≠ runeError then some (encodeRune dec, 12)
            else some (encodeRune runeError, 6)
          else some (encodeRune rr, 6)
      else none
  else if c = 0x22 ∨ c < 0x20 then none
  else if c < 0x80 then some ([c], 1)
  else
    let (rr, size) := decodeRune (c :: rest)
    some (encodeRune rr, size)

/-- The loop of Go `unquoteBytes` over the inside of a string literal; `skip` counts the
bytes the previous round has read beyond its first. -/
def unquoteLoop : List Byte → Nat → Option (List Byte)
  | [], _ => some []
  | _ :: rest, skip + 1 => unquoteLoop rest skip
  | c :: rest, 0 =>
    match unquoteAt c rest with
    | none => none
    | some (out, size) =>
      match unquoteLoop rest (size - 1) with
      | none => none
      | some more => some (out ++ more)

/-- Go `unquoteBytes`: the string a quoted JSON string literal denotes: escapes replaced,
invalid UTF-8 replaced by U+FFFD. -/
def unquoteBytes (s : List Byte) : Option (List Byte) :=
  if s.length < 2 ∨ s.head? ≠ some 0x22 ∨ s.getLast? ≠ some 0x22 then none
  else unquoteLoop (s.tail.dropLast) 0

/-- The parts of a number literal: the digits of integer part and fraction as one number,
the number of fraction digits, and the exponent with its sign. -/
structure Decimal where
  mant : Nat
  fracLen : Nat
  inFrac : Bool
  inExp : Bool
  expNeg : Bool
  exp : Nat

/-- Reads one byte of a number literal as `strconv` does: an exponent stops growing once it
has reached 10000. -/
def Decimal.read (d : Decimal) (c : Byte) : Decimal :=
  if isDigit c then
    let v := c.toNat - 0x30
    if d.inExp then (if d.exp < 10000 then { d with exp := d.exp * 10 + v } else d)
    else if d.inFrac then { d with mant := d.mant * 10 + v, fracLen := d.fracLen + 1 }
    else { d with mant := d.mant * 10 + v }
  else if c = ch '.' then { d with inFrac := true }
  else if c = ch 'e' ∨ c = ch 'E' then { d with inExp := true }
  else if c = ch '-' ∧ d.inExp then { d with expNeg := true }
  else d

/-- Reads a number literal. -/
def readDecimal (lit : List Byte) : Decimal :=
  lit.foldl Decimal.read
    { mant := 0, fracLen := 0, inFrac := false, inExp := false, expNeg := false, exp := 0 }

/-- The least magnitude that rounds to infinity as a `float64`: halfway between the largest
finite `float64` and `2 ^ 1024`. -/
def float64Overflow : Nat := 2 ^ 1024 - 2 ^ 970

/-- Whether `strconv.ParseFloat(lit, 64)` reports a range error: the magnitude
`mant * 10 ^ (exp - fracLen)` rounds to infinity. -/
def outOfRange (lit : List Byte) : Bool :=
  let d := readDecimal lit
  if d.expNeg then decide (float64Overflow * 10 ^ (d.fracLen + d.exp) ≤ d.mant)
  else decide (float64Overflow * 10 ^ d.fracLen ≤ d.mant * 10 ^ d.exp)

/-- The Go value of a JSON literal stored into an `interface{}`, and whether an error is
saved: `literalStore` with `convertNumber`. A number outside the `float64` range is stored
as nil and saves an error. A string literal that does not unquote cannot occur once the
scanner has accepted the input. -/
def literalValue (lit : List Byte) : GoValue × Bool :=
  match lit with
  | [] => (.nil, true)
  | c :: _ =>
    if c = 0x22 then
      match unquoteBytes lit with
      | some s => (.string s, false)
      | none => (.nil, true)
    else if c = ch 't' then (.bool true, false)
    else if c = ch 'f' then (.bool false, false)
    else if c = ch 'n' then (.nil, false)
    else if outOfRange lit then (.nil, true)
    else (.float64 lit, false)

/-! ## `encoding/json`: `Unmarshal` into a `map[string]interface{}` -/

/-- An error of `json.Unmarshal`. -/
inductive JsonError where
  /-- A `*json.SyntaxError`: the input is not well-formed JSON. -/
  | syntaxError
  /-- A `*json.UnmarshalTypeError`: a JSON value does not fit its Go target. -/
  | unmarshalTypeError
  deriving DecidableEq

/-- A composite value under construction: an array with the elements read so far, or an
object with its entries and the key whose value is being read. -/
inductive Frame where
  | array (items : List GoValue)
  | object (entries : Entries) (key : Option GoString)

/-- The decoder: its scanner, the literal being read, the open composite values (innermost
first), the finished top-level value, and whether an error was saved (`saveError`).
`target` holds the entries of the map that is decoded into. -/
structure DecodeState where
  scan : Scanner
  lit : Option (List Byte)
  stack : List Frame
  top : Option GoValue
  savedError : Bool
  target : Entries

/-- A finished value goes to the innermost open composite value: an array element, an
object key or the value of the pending key (a later duplicate key replaces the earlier
one); without an open composite value it is the top-level value. -/
def DecodeState.emit (d : DecodeState) (v : GoValue) : DecodeState :=
  match d.stack with
  | [] => { d with top := some v }
  | .array items :: rest => { d with stack := .array (items ++ [v]) :: rest }
  | .object entries (some k) :: rest => { d with stack := .object (mapSet entries k v) none :: rest }
  | .object entries none :: rest =>
    match v with
    | .string k => { d with stack := .object entries (some k) :: rest }
    | _ => d

/-- The literal being read is complete: it is converted and emitted. -/
def DecodeState.endLiteral (d : DecodeState) : DecodeState :=
  match d.lit with
  | none => d
  | some lit =>
    let (v, failed) := literalValue lit
    DecodeState.emit { d with lit := none, savedError := d.savedError || failed } v

/-- The innermost composite value is complete. -/
def DecodeState.close (d : DecodeState) : DecodeState :=
  match d.stack with
  | [] => d
  | .array items :: rest => DecodeState.emit { d with stack := rest } (.slice items)
  | .object entries _ :: rest => DecodeState.emit { d with stack := rest } (.map entries)

/-- The decoder reads the byte `c`: the scanner's opcode says what the byte is. The
top-level object is decoded into the target map, keeping its entries; an object inside a
value starts from an empty map. -/
def DecodeState.feed (d : DecodeState) (c : Byte) : DecodeState :=
  match d.scan.next c with
  | (s, .scanError) => { d with scan := s }
  | (s, .scanContinue) => { d with scan := s, lit := d.lit.map (fun l => l ++ [c]) }
  | (s, op) =>
    let d := DecodeState.endLiteral { d with scan := s }
    match op with
    | .scanBeginLiteral => { d with lit := some [c] }
    | .scanBeginObject =>
      { d with stack := .object (if d.stack.isEmpty then d.target else []) none :: d.stack }
    | .scanBeginArray => { d with stack := .array [] :: d.stack }
    | .scanEndObject => d.close
    | .scanEndArray => d.close
    | _ => d

/-- Go `json.Unmarshal(data, &v)` for `v` of type `map[string]interface{}`: the new value of
`v` and the error. Malformed input leaves `v` as it is. An object is decoded into `v` (an
allocated map is reused, a nil one allocated). `null` sets `v` to the nil map, without an
error. Any other JSON value is a type error and leaves `v` as it is. -/
def json.Unmarshal (data : List Byte) (v : GoMap) : GoMap × Option JsonError :=
  if !checkValid data then (v, some .syntaxError)
  else
    let d := data.foldl DecodeState.feed
      { scan := Scanner.reset, lit := none, stack := [], top := none, savedError := false,
        target := v.getD [] }
    let d := d.endLiteral
    match d.top with
    | some (.map entries) =>
      (some entries, if d.savedError then some .unmarshalTypeError else none)
    | some .nil => if d.savedError then (v, some .unmarshalTypeError) else (none, none)
    | _ => (v, some .unmarshalTypeError)

/-! ## `decode` -/

/-- Go `payload`. -/
structure payload where
  esIndex : GoString
  esType : GoString
  data : GoMap

/-- Go `decode(host, buf)`: the payload it sends on `queue`, or the panic it raises.
`nowIndex` is the clock reading in `currentIndex()`, `nowStamp` the later one for
`@timestamp`. -/
def decode (host : GoString) (buf : List Byte) (nowIndex nowStamp : Time) :
    Except Panic payload :=
  let p : payload := { esIndex := currentIndex nowIndex, esType := str "logs", data := some [] }
  let data : GoMap := some []
  let fill : Except Panic payload :=
    match json.Unmarshal buf data with
    | (data, none) => .ok { p with data := data }
    | (_, some _) =>
      match mapAssign p.data (str "message") (.string buf) with
      | .error e => .error e
      | .ok m => .ok { p with data := m }
  match fill with
  | .error e => .error e
  | .ok p =>
    match mapAssign p.data (str "host") (.string host) with
    | .error e => .error e
    | .ok m =>
      match mapAssign m (str "@timestamp") (.string (nowStamp.Format .RFC3339)) with
      | .error e => .error e
      | .ok m =>
        match mapAssign m (str "@version") (.int 1) with
        | .error e => .error e
        | .ok m => .ok { p with data := m }

/-- The map `decode` ends with, from the map `m` it has after the JSON step: the three
assignments of `host`, `@timestamp` and `@version`. -/
def stamped (m : Entries) (host : GoString) (nowStamp : Time) : Entries :=
  mapSet (mapSet (mapSet m (str "host") (.string host))
    (str "@timestamp") (.string (nowStamp.Format .RFC3339))) (str "@version") (.int 1)

/-! ## `process`: the delivery worker -/

/-- An `*http.Request`, as far as `process` sets it up. -/
structure Request where
  method : GoString
  url : GoString
  header : List (GoString × GoString)
  body : List Byte
  deriving DecidableEq

/-- An `*http.Response`: the status code and the bytes its body yields. -/
structure Response where
  statusCode : Int
  body : List Byte
  deriving DecidableEq

/-- The libraries and the network behind `process`; a Go `error` is its message.
`roundTrip n req` is what `http.DefaultClient.Do(req)` returns for the request issued after
`n` earlier ones. `parseURL` gives the error of `url.Parse`, the one way `http.NewRequest`
fails for the method `POST`. -/
structure World where
  marshal : GoMap → Except GoString (List Byte)
  parseURL : GoString → Option GoString
  roundTrip : Nat → Request → Except GoString Response
  decodeBody : List Byte → Except GoString GoMap

/-- A call of `log.Printf` in `process`, by its format string. -/
inductive LogEntry where
  /-- `invalid payload: %s` -/
  | invalidPayload (err : GoString)
  /-- `unable to write payload to elasticsearch: %s` -/
  | unableToWrite (err : GoString)
  /-- `unable to decode response body: %s` -/
  | unableToDecode (err : GoString)
  /-- `unexpected status code %s for response: %s` -/
  | unexpectedStatus (statusCode : Int) (rdata : GoMap)

/-- What `process` has done so far: the log lines written, the requests handed to
`http.DefaultClient.Do`, the number of response bodies obtained and not closed, and the
number of deferred `resp.Body.Close()` calls, which run when `process` returns. -/
structure WorkerState where
  logs : List LogEntry
  sent : List Request
  openBodies : Nat
  deferred : Nat

/-- The worker before its first loop iteration. -/
def WorkerState.init : WorkerState := { logs := [], sent := [], openBodies := 0, deferred := 0 }

/-- Go `http.NewRequest(method, url, body)` for a valid method. -/
def NewRequest (w : World) (method url : GoString) (body : List Byte) : Except GoString Request :=
  match w.parseURL url with
  | some e => .error e
  | none => .ok { method := method, url := url, header := [], body := body }

/-- Go `Header.Set(key, value)` for a key in canonical form. -/
def headerSet : List (GoString × GoString) → GoString → GoString → List (GoString × GoString)
  | [], k, v => [(k, v)]
  | (k', v') :: rest, k, v => if k' = k then (k, v) :: rest else (k', v') :: headerSet rest k v

/-- The URL `fmt.Sprintf("http://%s/%s/%s", *es, payload.esIndex, payload.esType)`. -/
def targetURL (es : GoString) (p : payload) : GoString :=
  str "http://" ++ es ++ str "/" ++ p.esIndex ++ str "/" ++ p.esType

/-- One iteration of the loop of Go `process` for the payload `p` received from `queue`;
`es` is the backend address `*es`. Every `continue` ends the iteration. The deferred
`resp.Body.Close()` is only recorded: a deferred call runs when the function returns. -/
def processPayload (w : World) (es : GoString) (st : WorkerState) (p : payload) : WorkerState :=
  match w.marshal p.data with
  | .error err => { st with logs := st.logs ++ [.invalidPayload err] }
  | .ok buf =>
    match NewRequest w (str "POST") (targetURL es p) buf with
    | .error _ => st
    | .ok req =>
      let req := { req with header := headerSet req.header (str "Content-Type") (str "application/json") }
      match w.roundTrip st.sent.length req with
      | .error err =>
        { st with sent := st.sent ++ [req], logs := st.logs ++ [.unableToWrite err] }
      | .ok resp =>
        let st := { st with sent := st.sent ++ [req], openBodies := st.openBodies + 1,
                            deferred := st.deferred + 1 }
        if resp.statusCode ≠ 201 then
          match w.decodeBody resp.body with
          | .error err => { st with logs := st.logs ++ [.unableToDecode err] }
          | .ok rdata => { st with logs := st.logs ++ [.unexpectedStatus resp.statusCode rdata] }
        else st

/-- The loop `for payload := range queue` over the payloads received, in order: the state
at the start of the next iteration. -/
def processLoop (w : World) (es : GoString) (st : WorkerState) (ps : List payload) : WorkerState :=
  ps.foldl (processPayload w es) st

/-- The return of `process`, reached only when `queue` is closed (the program never closes
it): the deferred calls run and close the bodies. -/
def processReturn (st : WorkerState) : WorkerState :=
  { st with openBodies := st.openBodies - st.deferred, deferred := 0 }

/-! ## The queue between `decode` and `process` -/

/-- The capacity of `queue`: `make(chan payload, 10000)`. -/
def queueCapacity : Nat := 10000

/-- The running program: the content of the channel `queue` (oldest first), the payloads
`decode` has sent and the payloads `process` has received, each in order, and the worker. -/
structure System where
  queue : List payload
  enqueued : List payload
  dequeued : List payload
  worker : WorkerState

/-- The program after `main` has made the queue. -/
def System.init : System :=
  { queue := [], enqueued := [], dequeued := [], worker := WorkerState.init }

/-- What happens next: the listener has read a datagram from `peer` and calls
`decode(parseHost(peer), buf)` at the clock readings given, or the worker receives the next
payload. -/
inductive Action where
  | datagram (peer : GoString) (buf : List Byte) (nowIndex nowStamp : Time)
  | deliver

/-- One step of the program; `none` when the step cannot happen: the send blocks on a full
queue, the receive blocks on an empty one, or the listener has panicked. -/
def System.step (w : World) (es : GoString) (s : System) : Action → Option System
  | .datagram peer buf nowIndex nowStamp =>
    match parseHost peer with
    | .error _ => none
    | .ok host =>
      match decode host buf nowIndex nowStamp with
      | .error _ => none
      | .ok p =>
        if s.queue.length < queueCapacity then
          some { s with queue := s.queue ++ [p], enqueued := s.enqueued ++ [p] }
        else none
  | .deliver =>
    match s.queue with
    | [] => none
    | p :: rest =>
      some { s with queue := rest, dequeued := s.dequeued ++ [p],
                    worker := processPayload w es s.worker p }

/-- A run of the program: the steps `acts` in order. -/
def System.run (w : World) (es : GoString) (s : System) : List Action → Option System
  | [] => some s
  | a :: acts =>
    match s.step w es a with
    | none => none
    | some s => System.run w es s acts

/-! ## Sample inputs -/

/-- A world for the examples: every map serializes (to `{}`), a URL with a space is
rejected as `url.Parse` does, the backend answers every request with `status` and `body`,
and a response body decodes when it is a JSON object. -/
def sampleWorld (status : Int) (body : List Byte) : World :=
  { marshal := fun _ => .ok (str "\x7b\x7d")
    parseURL := fun u => if 0x20 ∈ u then some (str "invalid character in host name") else none
    roundTrip := fun _ _ => .ok { statusCode := status, body := body }
    decodeBody := fun b =>
      match json.Unmarshal b (some []) with
      | (m, none) => .ok m
      | (_, some _) => .error (str "invalid character") }

/-- The payload `decode` sends for the datagram `hello` from `10.0.0.5` at `newYear2024`. -/
def samplePayload : payload :=
  { esIndex := str "logstash-2024.01.01", esType := str "logs",
    data := some [(str "message", .string (str "hello")), (str "host", .string (str "10.0.0.5")),
      (str "@timestamp", .string (str "2024-01-01T12:30:05Z")), (str "@version", .int 1)] }

/-- The payload `decode` sends for the datagram `{"msg":"hi"}` from `10.0.0.6` at
`newYear2024`. -/
def samplePayload2 : payload :=
  { esIndex := str "logstash-2024.01.01", esType := str "logs",
    data := some [(str "msg", .string (str "hi")), (str "host", .string (str "10.0.0.6")),
      (str "@timestamp", .string (str "2024-01-01T12:30:05Z")), (str "@version", .int 1)] }

/-- A run of the program: two datagrams arrive, then the worker receives a payload. -/
def sampleActions : List Action :=
  [.datagram (str "10.0.0.5:54321") (str "hello") newYear2024 newYear2024,
   .datagram (str "10.0.0.6:1234") (str "\x7b\"msg\":\"hi\"\x7d") newYear2024 newYear2024,
   .deliver]

/-- The state after `sampleActions`. -/
def sampleFinal : System :=
  { queue := [samplePayload2], enqueued := [samplePayload, samplePayload2],
    dequeued := [samplePayload],
    worker := processPayload (sampleWorld 201 []) (str "127.0.0.1:9200") WorkerState.init
      samplePayload }

/-- The datagram `{"msg":"hello","host":"spoofed"}`. -/
def spoofedDatagram : List Byte := str "\x7b\"msg\":\"hello\",\"host\":\"spoofed\"\x7d"

/-- The JSON object of `spoofedDatagram`. -/
def spoofedObject : Entries :=
  [(str "msg", .string (str "hello")), (str "host", .string (str "spoofed"))]

/-- The invariant of the queue: what was sent is what was received followed by the content
of the channel, the channel holds at most its capacity, and the worker has processed the
received payloads in order. -/
def System.Inv (w : World) (es : GoString) (s : System) : Prop :=
  s.enqueued = s.dequeued ++ s.queue ∧ s.queue.length ≤ queueCapacity ∧
    s.worker = processLoop w es WorkerState.init s.dequeued
/-! ## Lemmas on `Split` -/

theorem Split_ne_nil (sep : Byte) (s : GoString) : Split sep s ≠ [] := by
  cases s with
  | nil => simp [Split]
  | cons c cs =>
    unfold Split
    split
    · simp
    · split <;> simp

theorem Split_head (sep : Byte) (s : GoString) :
    (Split sep s)[0]? = some (s.takeWhile (fun c => !decide (c = sep))) := by
  induction s with
  | nil => simp [Split]
  | cons c cs ih =>
    unfold Split
    by_cases h : c = sep
    · simp [h]
    · simp only [h, if_false]
      cases hs : Split sep cs with
      | nil => exact absurd hs (Split_ne_nil sep cs)
      | cons piece pieces =>
        rw [hs] at ih
        simp at ih
        simp [List.takeWhile_cons, h, ih]

theorem parseHost_eq (s : GoString) :
    parseHost s = .ok (s.takeWhile (fun c => !decide (c = colon))) := by
  simp [parseHost, Split_head]

theorem takeWhile_ne_of_not_mem (sep : Byte) (s : GoString) (h : sep ∉ s) :
    s.takeWhile (fun c => !decide (c = sep)) = s := by
  induction s with
  | nil => rfl
  | cons c cs ih =>
    simp only [List.mem_cons, not_or] at h
    have hc : c ≠ sep := fun e => h.1 e.symm
    simp [List.takeWhile_cons, hc, ih h.2]

theorem takeWhile_ne_append (sep : Byte) (h p : GoString) (hh : sep ∉ h) :
    (h ++ sep :: p).takeWhile (fun c => !decide (c = sep)) = h := by
  induction h with
  | nil => simp [List.takeWhile_cons]
  | cons c cs ih =>
    simp only [List.mem_cons, not_or] at hh
    have hc : c ≠ sep := fun e => hh.1 e.symm
    simp [List.takeWhile_cons, hc, ih hh.2]

theorem not_mem_takeWhile_ne (sep : Byte) (s : GoString) :
    sep ∉ s.takeWhile (fun c => !decide (c = sep)) := by
  intro h
  have := List.mem_takeWhile_imp h
  simp at this

theorem takeWhile_ne_split (sep : Byte) (s : GoString) (h : sep ∈ s) :
    ∃ p, s = s.takeWhile (fun c => !decide (c = sep)) ++ sep :: p := by
  induction s with
  | nil => simp at h
  | cons c cs ih =>
    by_cases hc : c = sep
    · exact ⟨cs, by simp [List.takeWhile_cons, hc]⟩
    · have hmem : sep ∈ cs := by
        rcases List.mem_cons.mp h with e | e
        · exact absurd e.symm hc
        · exact e
      obtain ⟨p, hp⟩ := ih hmem
      refine ⟨p, ?_⟩
      simp only [List.takeWhile_cons, hc, decide_False, Bool.not_false, if_true,
        List.cons_append]
      exact congrArg (List.cons c) hp

/-! ## Claims on `parseHost` -/

/-- C10: `parseHost` never panics and returns the part of its argument before the first
`:`: the result is a prefix of `s` without `:`, it is `s` itself when `s` has no `:`, and
`parseHost (h ++ ":" ++ p) = h` for every `h` without `:` and every `p`. -/
theorem parseHost_before_first_colon (s h p : GoString) :
    (∃ r, parseHost s = .ok r ∧ r <+: s ∧ colon ∉ r ∧ (colon ∉ s → r = s)) ∧
    (colon ∉ h → parseHost (h ++ colon :: p) = .ok h) := by
  refine ⟨⟨_, parseHost_eq s, List.takeWhile_prefix _, not_mem_takeWhile_ne colon s, ?_⟩, ?_⟩
  · exact takeWhile_ne_of_not_mem colon s
  · intro hh
    rw [parseHost_eq, takeWhile_ne_append colon h p hh]

/-- C10 at the peer address `10.0.0.5:54321`: the host is `10.0.0.5`. -/
theorem parseHost_before_first_colon_witness :
    parseHost (str "10.0.0.5:54321") = .ok (str "10.0.0.5") :=
  (parseHost_before_first_colon [] (str "10.0.0.5") (str "54321")).2 (by decide)

/-- C4 as stated fails: for the IPv6 peer address `[::1]:54321` the host is `[`, and what
follows its `:` still contains `:`; the address is not host, `:`, colon-free rest. -/
theorem parseHost_not_last_colon :
    ¬ ∃ r p, parseHost (str "[::1]:54321") = .ok r ∧ colon ∉ p ∧
      str "[::1]:54321" = r ++ colon :: p := by
  rintro ⟨r, p, hr, hp, hs⟩
  have h1 : parseHost (str "[::1]:54321") = .ok (str "[") := by decide
  rw [h1] at hr
  injection hr with hr
  subst hr
  have h2 : str "[::1]:54321" = str "[" ++ colon :: str ":1]:54321" := by decide
  rw [h2] at hs
  have h3 : str ":1]:54321" = p := by
    have := List.append_cancel_left hs
    injection this
  subst h3
  exact hp (by decide)

/-- C4 amended: for every peer address `s` that contains `:`, `parseHost s` is `s` with the
first `:` and everything after it removed: `s = parseHost s ++ ":" ++ p` where the host
contains no `:`. -/
theorem parseHost_strips_from_first_colon (s : GoString) (hs : colon ∈ s) :
    ∃ r p, parseHost s = .ok r ∧ colon ∉ r ∧ s = r ++ colon :: p := by
  obtain ⟨p, hp⟩ := takeWhile_ne_split colon s hs
  exact ⟨_, p, parseHost_eq s, not_mem_takeWhile_ne colon s, hp⟩

/-- C4 amended, at `[::1]:54321`. -/
theorem parseHost_strips_from_first_colon_witness :
    colon ∈ str "[::1]:54321" ∧
    ∃ r p, parseHost (str "[::1]:54321") = .ok r ∧ colon ∉ r ∧
      str "[::1]:54321" = r ++ colon :: p :=
  ⟨by decide, parseHost_strips_from_first_colon (str "[::1]:54321") (by decide)⟩


/-! ## Lemmas on `appendInt` -/

theorem countDigits_zero (fuel : Nat) : countDigits fuel 0 = 0 := by
  cases fuel <;> simp [countDigits]

/-- The fuel `u` is enough: a number with `k + 1` decimal digits is counted as such. -/
theorem countDigits_eq (k : Nat) : ∀ fuel u, u ≤ fuel → 10 ^ k ≤ u → u < 10 ^ (k + 1) →
    countDigits fuel u = k + 1 := by
  induction k with
  | zero =>
    intro fuel u hf h1 h2
    cases fuel with
    | zero => omega
    | succ fuel =>
      have h0 : u / 10 = 0 := by omega
      have hu : u ≠ 0 := by omega
      simp [countDigits, h0, hu, countDigits_zero]
  | succ k ih =>
    intro fuel u hf h1 h2
    have hpos : 0 < 10 ^ k := by positivity
    have e1 : 10 ^ (k + 1) = 10 * 10 ^ k := by ring
    have e2 : 10 ^ (k + 1 + 1) = 10 * 10 ^ (k + 1) := by ring
    cases fuel with
    | zero => omega
    | succ fuel =>
      have hrec := ih fuel (u / 10) (by omega) (by omega) (by omega)
      have hu : u ≠ 0 := by omega
      simp [countDigits, hu, hrec]

theorem digit_zero : digit 0 = ch '0' := by decide

theorem appendInt_four (y : Nat) (h : y ≤ 9999) :
    appendInt (y : Int) 4 =
      [digit (y / 1000 % 10), digit (y / 100 % 10), digit (y / 10 % 10), digit (y % 10)] := by
  have hneg : ¬ ((y : Int) < 0) := by omega
  simp only [appendInt, Int.natAbs_ofNat, hneg, if_false, List.nil_append]
  by_cases h0 : y = 0
  · subst h0; decide
  by_cases h1 : y < 10
  · have hc := countDigits_eq 0 y y le_rfl (by omega) (by omega)
    have a1 : y / 1000 = 0 := by omega
    have a2 : y / 100 = 0 := by omega
    have a3 : y / 10 = 0 := by omega
    simp [h0, hc, printDigits, List.replicate, a1, a2, a3, digit_zero]
  by_cases h2 : y < 100
  · have hc := countDigits_eq 1 y y le_rfl (by omega) (by omega)
    have a1 : y / 1000 = 0 := by omega
    have a2 : y / 100 = 0 := by omega
    have a3 : y / 10 % 10 = y / 10 := by omega
    simp [h0, hc, printDigits, List.replicate, a1, a2, a3, digit_zero]
  by_cases h3 : y < 1000
  · have hc := countDigits_eq 2 y y le_rfl (by omega) (by omega)
    have a1 : y / 1000 = 0 := by omega
    have a2 : y / 10 / 10 = y / 100 := by omega
    simp [h0, hc, printDigits, List.replicate, a1, a2, digit_zero]
  · have hc := countDigits_eq 3 y y le_rfl (by omega) (by omega)
    have a1 : y / 10 / 10 / 10 = y / 1000 := by omega
    have a2 : y / 10 / 10 = y / 100 := by omega
    have a3 : y / 100 / 10 = y / 1000 := by omega
    simp [h0, hc, printDigits, List.replicate, a1, a2, a3]

theorem appendInt_two (m : Nat) (h : m ≤ 99) :
    appendInt (m : Int) 2 = [digit (m / 10 % 10), digit (m % 10)] := by
  have hneg : ¬ ((m : Int) < 0) := by omega
  simp only [appendInt, Int.natAbs_ofNat, hneg, if_false, List.nil_append]
  by_cases h0 : m = 0
  · subst h0; decide
  by_cases h1 : m < 10
  · have hc := countDigits_eq 0 m m le_rfl (by omega) (by omega)
    have a3 : m / 10 = 0 := by omega
    simp [h0, hc, printDigits, List.replicate, a3, digit_zero]
  · have hc := countDigits_eq 1 m m le_rfl (by omega) (by omega)
    simp [h0, hc, printDigits, List.replicate]

/-- For a year of at most four digits `currentIndex` is `logstash-` and the date in the
form `YYYY.MM.DD`. -/
theorem currentIndex_eq (t : Time) (hy0 : 0 ≤ t.year) (hy : t.year ≤ 9999) (hm : t.month ≤ 12)
    (hd : t.day ≤ 31) :
    str "logstash-" ++ t.Format .dotDate = str "logstash-" ++ specDate t.year.toNat t.month t.day := by
  obtain ⟨y, e⟩ := Int.eq_ofNat_of_zero_le hy0
  have hy' : y ≤ 9999 := by omega
  simp only [Time.Format, specDate, e, Int.toNat_ofNat]
  rw [appendInt_four y hy', appendInt_two _ (by omega : t.month ≤ 99),
    appendInt_two _ (by omega : t.day ≤ 99)]
  simp

/-- The zone `Time.Format` writes is the zone of the spec. -/
theorem formatZone_eq (o : Int) (h1 : -86400 < o) (h2 : o < 86400) (h3 : o % 60 = 0) :
    formatZone o = specZone o := by
  unfold formatZone specZone
  by_cases h0 : o = 0
  · simp [h0]
  · have hz : (Int.tdiv o 60 < 0) ↔ o < 0 := by
      rcases o with n | n
      · simp only [Int.ofNat_eq_coe] at *
        have : Int.tdiv (n : Int) 60 = ((n / 60 : Nat) : Int) := rfl
        rw [this]
        omega
      · have : Int.tdiv (Int.negSucc n) 60 = -(((n + 1) / 60 : Nat) : Int) := rfl
        rw [this]
        have hn : Int.negSucc n = -((n : Int) + 1) := rfl
        rw [hn] at h1 h2 h3 ⊢
        omega
    have ha : (Int.tdiv o 60).natAbs = o.natAbs / 60 := by
      rw [Int.natAbs_tdiv]
      rfl
    have hb : o.natAbs < 86400 := by omega
    have hh : o.natAbs / 60 / 60 = o.natAbs / 3600 := by omega
    simp only [h0, if_false, ha]
    rw [appendInt_two (o.natAbs / 60 / 60) (by omega), appendInt_two (o.natAbs / 60 % 60) (by omega),
      hh]
    by_cases hneg : o < 0
    · simp [hz.mpr hneg, hneg]
    · have : ¬ Int.tdiv o 60 < 0 := fun h => hneg (hz.mp h)
      simp [this, hneg]

/-- For a civil clock reading `Time.Format(time.RFC3339)` is the RFC 3339 timestamp of the
spec. -/
theorem Format_RFC3339_eq (t : Time) (h : t.Civil) :
    t.Format .RFC3339 =
      specRFC3339 t.year.toNat t.month t.day t.hour t.minute t.second t.offset := by
  obtain ⟨hy0, hy, hmo, hd, hh, hmi, hs, ho1, ho2, ho3⟩ := h
  obtain ⟨y, e⟩ := Int.eq_ofNat_of_zero_le hy0
  have hy' : y ≤ 9999 := by omega
  simp only [Time.Format, specRFC3339, e, Int.toNat_ofNat]
  rw [appendInt_four y hy', appendInt_two _ (by omega : t.month ≤ 99),
    appendInt_two _ (by omega : t.day ≤ 99), appendInt_two _ (by omega : t.hour ≤ 99),
    appendInt_two _ (by omega : t.minute ≤ 99), appendInt_two _ (by omega : t.second ≤ 99),
    formatZone_eq t.offset ho1 ho2 ho3]
  simp

/-- Three timestamps: a reading in UTC, one in a zone an hour east of it and one in a zone
five and a half hours west. -/
theorem Format_RFC3339_examples :
    newYear2024.Format .RFC3339 = str "2024-01-01T12:30:05Z" ∧
    summerEast.Format .RFC3339 = str "2024-07-09T08:05:00+01:00" ∧
    summerWest.Format .RFC3339 = str "2024-07-09T08:05:00-05:30" := by
  decide

/-! ## Lemmas on maps -/

theorem mapGet_mapSet_self (m : Entries) (k : GoString) (v : GoValue) :
    mapGet (mapSet m k v) k = some v := by
  induction m with
  | nil => simp [mapSet, mapGet]
  | cons e rest ih =>
    obtain ⟨k', v'⟩ := e
    by_cases h : k' = k
    · simp [mapSet, mapGet, h]
    · simp [mapSet, mapGet, h, ih]

theorem mapGet_mapSet_ne (m : Entries) (k k' : GoString) (v : GoValue) (h : k' ≠ k) :
    mapGet (mapSet m k v) k' = mapGet m k' := by
  induction m with
  | nil => simp [mapSet, mapGet, h.symm]
  | cons e rest ih =>
    obtain ⟨k₀, v₀⟩ := e
    by_cases h0 : k₀ = k
    · subst h0
      simp [mapSet, mapGet, h.symm]
    · by_cases h1 : k₀ = k'
      · subst h1
        simp [mapSet, mapGet, h0]
      · simp [mapSet, mapGet, h0, h1, ih]

theorem mem_mapKeys_mapSet (m : Entries) (k k' : GoString) (v : GoValue) :
    k' ∈ mapKeys (mapSet m k v) ↔ k' ∈ mapKeys m ∨ k' = k := by
  induction m with
  | nil => simp [mapSet, mapKeys]
  | cons e rest ih =>
    obtain ⟨k₀, v₀⟩ := e
    by_cases h0 : k₀ = k
    · subst h0
      simp [mapSet, mapKeys]
      tauto
    · simp only [mapKeys] at ih
      simp [mapSet, mapKeys, h0, ih]
      tauto

/-! ## Lemmas on `decode` -/

/-- The three outcomes of `decode`, by the outcome of `json.Unmarshal`: a decoded object is
stamped, an error gives the stamped `message` map, and the nil map left by `null` makes the
first assignment panic. -/
theorem decode_eq (host : GoString) (buf : List Byte) (nowIndex nowStamp : Time) :
    decode host buf nowIndex nowStamp =
      match json.Unmarshal buf (some []) with
      | (some m, none) =>
        .ok { esIndex := currentIndex nowIndex, esType := str "logs",
              data := some (stamped m host nowStamp) }
      | (none, none) => .error .nilMapAssign
      | (_, some _) =>
        .ok { esIndex := currentIndex nowIndex, esType := str "logs",
              data := some (stamped [(str "message", .string buf)] host nowStamp) } := by
  rcases h : json.Unmarshal buf (some []) with ⟨_ | m, _ | e⟩ <;>
    simp [decode, h, mapAssign, stamped] <;> rfl

theorem Unmarshal_invalid (buf : List Byte) (v : GoMap) (h : checkValid buf = false) :
    json.Unmarshal buf v = (v, some .syntaxError) := by
  simp [json.Unmarshal, h]

theorem key_message_ne_host : str "message" ≠ str "host" := by decide
theorem key_message_ne_timestamp : str "message" ≠ str "@timestamp" := by decide
theorem key_message_ne_version : str "message" ≠ str "@version" := by decide
theorem key_host_ne_timestamp : str "host" ≠ str "@timestamp" := by decide
theorem key_host_ne_version : str "host" ≠ str "@version" := by decide
theorem key_timestamp_ne_version : str "@timestamp" ≠ str "@version" := by decide

theorem stamped_message (buf host : GoString) (nowStamp : Time) :
    stamped [(str "message", .string buf)] host nowStamp =
      [(str "message", .string buf), (str "host", .string host),
        (str "@timestamp", .string (nowStamp.Format .RFC3339)), (str "@version", .int 1)] := by
  simp [stamped, mapSet, key_message_ne_host, key_message_ne_timestamp, key_message_ne_version,
    key_host_ne_timestamp, key_host_ne_version, key_timestamp_ne_version]

theorem mapGet_stamped (m : Entries) (host : GoString) (nowStamp : Time) :
    mapGet (stamped m host nowStamp) (str "host") = some (.string host) ∧
    mapGet (stamped m host nowStamp) (str "@timestamp") =
      some (.string (nowStamp.Format .RFC3339)) ∧
    mapGet (stamped m host nowStamp) (str "@version") = some (.int 1) := by
  refine ⟨?_, ?_, ?_⟩
  · rw [stamped, mapGet_mapSet_ne _ _ _ _ key_host_ne_version,
      mapGet_mapSet_ne _ _ _ _ key_host_ne_timestamp, mapGet_mapSet_self]
  · rw [stamped, mapGet_mapSet_ne _ _ _ _ key_timestamp_ne_version, mapGet_mapSet_self]
  · rw [stamped, mapGet_mapSet_self]

theorem mapGet_stamped_other (m : Entries) (host : GoString) (nowStamp : Time) (k : GoString)
    (h1 : k ≠ str "host") (h2 : k ≠ str "@timestamp") (h3 : k ≠ str "@version") :
    mapGet (stamped m host nowStamp) k = mapGet m k := by
  rw [stamped, mapGet_mapSet_ne _ _ _ _ h3, mapGet_mapSet_ne _ _ _ _ h2,
    mapGet_mapSet_ne _ _ _ _ h1]

theorem mem_mapKeys_stamped (m : Entries) (host : GoString) (nowStamp : Time) (k : GoString) :
    k ∈ mapKeys (stamped m host nowStamp) ↔
      k ∈ mapKeys m ∨ k = str "host" ∨ k = str "@timestamp" ∨ k = str "@version" := by
  simp only [stamped, mem_mapKeys_mapSet]
  tauto

/-! ## Claims on `decode` -/

/-- C1, the input on which `decode` fails: for the datagram `null`, `json.Unmarshal` returns
no error and leaves the nil map, and the assignment `payload.data["host"] = host` panics;
no payload is sent. -/
theorem decode_null_panics :
    json.Unmarshal (str "null") (some []) = (none, none) ∧
    decode (str "10.0.0.5") (str "null") newYear2024 newYear2024 = .error .nilMapAssign :=
  ⟨rfl, rfl⟩

/-- C1 for every other input: unless `json.Unmarshal` leaves the nil map, `decode` sends one
payload whose fields hold `host`, `@timestamp` and `@version`, with the given host and the
integer 1. -/
theorem decode_metadata (host : GoString) (buf : List Byte) (nowIndex nowStamp : Time)
    (h : json.Unmarshal buf (some []) ≠ (none, none)) :
    ∃ p m, decode host buf nowIndex nowStamp = .ok p ∧ p.data = some m ∧
      mapGet m (str "host") = some (.string host) ∧
      mapGet m (str "@timestamp") = some (.string (nowStamp.Format .RFC3339)) ∧
      mapGet m (str "@version") = some (.int 1) := by
  rw [decode_eq]
  rcases hu : json.Unmarshal buf (some []) with ⟨_ | m, _ | e⟩
  · exact absurd hu h
  · exact ⟨_, _, rfl, rfl, mapGet_stamped _ host nowStamp⟩
  · exact ⟨_, _, rfl, rfl, mapGet_stamped _ host nowStamp⟩
  · exact ⟨_, _, rfl, rfl, mapGet_stamped _ host nowStamp⟩

/-- C2: for every host and every input that is not valid JSON, `decode` sends a payload
whose fields are exactly `message` (the input bytes, unchanged), `host`, `@timestamp` and
`@version`. -/
theorem decode_fallback (host : GoString) (buf : List Byte) (nowIndex nowStamp : Time)
    (h : checkValid buf = false) :
    ∃ p m, decode host buf nowIndex nowStamp = .ok p ∧ p.data = some m ∧
      mapGet m (str "message") = some (.string buf) ∧
      mapKeys m = [str "message", str "host", str "@timestamp", str "@version"] ∧
      m = [(str "message", .string buf), (str "host", .string host),
        (str "@timestamp", .string (nowStamp.Format .RFC3339)), (str "@version", .int 1)] := by
  rw [decode_eq, Unmarshal_invalid buf _ h]
  refine ⟨_, _, rfl, rfl, ?_, ?_, stamped_message buf host nowStamp⟩
  · rw [stamped_message]; simp [mapGet]
  · rw [stamped_message]; simp [mapKeys]

/-- C2 at the datagram `not json at all`. -/
theorem decode_fallback_witness :
    checkValid (str "not json at all") = false ∧
    ∃ p m, decode (str "10.0.0.5") (str "not json at all") newYear2024 newYear2024 = .ok p ∧
      p.data = some m ∧
      mapGet m (str "message") = some (.string (str "not json at all")) ∧
      mapKeys m = [str "message", str "host", str "@timestamp", str "@version"] ∧
      m = [(str "message", .string (str "not json at all")),
        (str "host", .string (str "10.0.0.5")),
        (str "@timestamp", .string (newYear2024.Format .RFC3339)), (str "@version", .int 1)] :=
  ⟨by decide, decode_fallback (str "10.0.0.5") (str "not json at all") newYear2024 newYear2024
    (by decide)⟩

/-- C3: when the input parses as the JSON object `m`, `decode` sends a payload whose fields
have the keys of `m` and `host`, `@timestamp`, `@version`; every other key keeps its value
from `m`, the three metadata keys hold the given host, the clock reading formatted with
`time.RFC3339` and the integer 1 whatever `m` held for them, and `message` is a key only if
it is one of `m`. For a civil clock reading the timestamp is the RFC 3339 text
`YYYY-MM-DDTHH:MM:SS` followed by `Z` or the zone offset `+HH:MM` or `-HH:MM`. -/
theorem decode_object (host : GoString) (buf : List Byte) (nowIndex nowStamp : Time)
    (m : Entries) (h : json.Unmarshal buf (some []) = (some m, none)) :
    ∃ p d, decode host buf nowIndex nowStamp = .ok p ∧ p.data = some d ∧
      (∀ k, k ∈ mapKeys d ↔
        k ∈ mapKeys m ∨ k = str "host" ∨ k = str "@timestamp" ∨ k = str "@version") ∧
      (∀ k, k ≠ str "host" → k ≠ str "@timestamp" → k ≠ str "@version" →
        mapGet d k = mapGet m k) ∧
      mapGet d (str "host") = some (.string host) ∧
      mapGet d (str "@timestamp") = some (.string (nowStamp.Format .RFC3339)) ∧
      (nowStamp.Civil → mapGet d (str "@timestamp") = some (.string
        (specRFC3339 nowStamp.year.toNat nowStamp.month nowStamp.day nowStamp.hour
          nowStamp.minute nowStamp.second nowStamp.offset))) ∧
      mapGet d (str "@version") = some (.int 1) ∧
      (str "message" ∈ mapKeys d ↔ str "message" ∈ mapKeys m) := by
  rw [decode_eq, h]
  refine ⟨_, _, rfl, rfl, mem_mapKeys_stamped m host nowStamp,
    mapGet_stamped_other m host nowStamp, (mapGet_stamped m host nowStamp).1,
    (mapGet_stamped m host nowStamp).2.1, ?_, (mapGet_stamped m host nowStamp).2.2, ?_⟩
  · intro hc
    rw [(mapGet_stamped m host nowStamp).2.1, Format_RFC3339_eq nowStamp hc]
  · rw [mem_mapKeys_stamped]
    simp [key_message_ne_host, key_message_ne_timestamp, key_message_ne_version]

/-- C3 at the datagram `{"msg":"hello","host":"spoofed"}` from `10.0.0.5`, decoded at
2024-01-01T12:30:05Z: the fields are `msg` (kept), `host` (overwritten with `10.0.0.5`),
`@timestamp` (the text `2024-01-01T12:30:05Z`) and `@version` (1), and no `message`. -/
theorem decode_object_witness :
    json.Unmarshal spoofedDatagram (some []) = (some spoofedObject, none) ∧
    newYear2024.Civil ∧
    ∃ p d, decode (str "10.0.0.5") spoofedDatagram newYear2024 newYear2024 = .ok p ∧
      p.data = some d ∧
      (∀ k, k ∈ mapKeys d ↔
        k ∈ [str "msg", str "host"] ∨ k = str "host" ∨ k = str "@timestamp" ∨
          k = str "@version") ∧
      mapGet d (str "msg") = some (.string (str "hello")) ∧
      mapGet d (str "host") = some (.string (str "10.0.0.5")) ∧
      mapGet d (str "@timestamp") = some (.string (str "2024-01-01T12:30:05Z")) ∧
      mapGet d (str "@version") = some (.int 1) ∧
      str "message" ∉ mapKeys d := by
  have hu : json.Unmarshal spoofedDatagram (some []) = (some spoofedObject, none) := rfl
  have hc : newYear2024.Civil := by decide
  obtain ⟨p, d, hp, hd, hk, hv, hh, _, hts, hver, hmsg⟩ :=
    decode_object (str "10.0.0.5") spoofedDatagram newYear2024 newYear2024 spoofedObject hu
  have hkeys : mapKeys spoofedObject = [str "msg", str "host"] := rfl
  have hmsgv : mapGet spoofedObject (str "msg") = some (.string (str "hello")) := rfl
  have hspec : specRFC3339 newYear2024.year.toNat newYear2024.month newYear2024.day
      newYear2024.hour newYear2024.minute newYear2024.second newYear2024.offset =
      str "2024-01-01T12:30:05Z" := by decide
  have hno : str "message" ∉ [str "msg", str "host"] := by decide
  refine ⟨hu, hc, p, d, hp, hd, ?_, ?_, hh, ?_, hver, ?_⟩
  · intro k
    rw [hk k, hkeys]
  · rw [hv _ (by decide) (by decide) (by decide), hmsgv]
  · rw [hts hc, hspec]
  · rw [hmsg, hkeys]
    exact hno

/-- C5: for every clock reading, host and input, the payload `decode` builds has type
`logs` and the index `logstash-` followed by the date of the reading in the layout
`2006.01.02`, whatever the host and the input; for a reading whose year has at most four
digits that is `logstash-YYYY.MM.DD`: a 4-digit year, a 2-digit month and a 2-digit day,
zero-padded. `decode` builds a payload unless `json.Unmarshal` leaves the nil map. -/
theorem decode_index (host : GoString) (buf : List Byte) (nowIndex nowStamp : Time) :
    (json.Unmarshal buf (some []) = (none, none) ∧
      decode host buf nowIndex nowStamp = .error .nilMapAssign) ∨
    ∃ p, decode host buf nowIndex nowStamp = .ok p ∧ p.esType = str "logs" ∧
      p.esIndex = str "logstash-" ++ nowIndex.Format .dotDate ∧
      (0 ≤ nowIndex.year → nowIndex.year ≤ 9999 → nowIndex.month ≤ 12 → nowIndex.day ≤ 31 →
        p.esIndex = str "logstash-" ++
          specDate nowIndex.year.toNat nowIndex.month nowIndex.day) := by
  rw [decode_eq]
  rcases hu : json.Unmarshal buf (some []) with ⟨_ | m, _ | e⟩
  · exact Or.inl ⟨rfl, rfl⟩
  · exact Or.inr ⟨_, rfl, rfl, rfl, currentIndex_eq nowIndex⟩
  · exact Or.inr ⟨_, rfl, rfl, rfl, currentIndex_eq nowIndex⟩
  · exact Or.inr ⟨_, rfl, rfl, rfl, currentIndex_eq nowIndex⟩

/-- C5 at a reading on 1 January 2024: the index is `logstash-2024.01.01`. -/
theorem decode_index_witness :
    ∃ p, decode (str "10.0.0.5") (str "\x7b\"msg\":\"hello\"\x7d") newYear2024 newYear2024 =
        .ok p ∧ p.esType = str "logs" ∧ p.esIndex = str "logstash-2024.01.01" ∧
      p.esIndex = str "logstash-" ++ specDate 2024 1 1 := by
  rcases decode_index (str "10.0.0.5") (str "\x7b\"msg\":\"hello\"\x7d") newYear2024
    newYear2024 with ⟨h, _⟩ | ⟨p, hp, ht, hi, hs⟩
  · exact absurd h (by
      have e : json.Unmarshal (str "\x7b\"msg\":\"hello\"\x7d") (some []) =
          (some [(str "msg", .string (str "hello"))], none) := rfl
      rw [e]
      simp)
  · refine ⟨p, hp, ht, ?_, hs (by decide) (by decide) (by decide) (by decide)⟩
    rw [hi]
    decide

/-! ## Lemmas on `process` -/

/-- The request `process` builds for the payload `p` and the serialized fields `body`. -/
theorem processPayload_sent (w : World) (es : GoString) (st : WorkerState) (p : payload)
    (body : List Byte) (hm : w.marshal p.data = .ok body)
    (hu : w.parseURL (targetURL es p) = none) :
    (processPayload w es st p).sent = st.sent ++
      [{ method := str "POST", url := targetURL es p,
         header := [(str "Content-Type", str "application/json")], body := body }] := by
  unfold processPayload
  simp only [hm, NewRequest, hu, headerSet]
  split
  · rfl
  · split
    · split <;> rfl
    · rfl

/-- The outcome of one loop iteration on each path of `process`: a failed `json.Marshal`
logs and sends nothing; a failed `http.NewRequest` leaves the state as it is (no log); a
failed transport logs after one request; a response with another status than 201 logs
once, with the decoded body or the decoding error; a 201 response logs nothing. -/
theorem processPayload_paths (w : World) (es : GoString) (st : WorkerState) (p : payload) :
    (∀ err, w.marshal p.data = .error err →
      processPayload w es st p = { st with logs := st.logs ++ [.invalidPayload err] }) ∧
    (∀ body err, w.marshal p.data = .ok body → w.parseURL (targetURL es p) = some err →
      processPayload w es st p = st) ∧
    (∀ body, w.marshal p.data = .ok body → w.parseURL (targetURL es p) = none →
      ∃ req, (processPayload w es st p).sent = st.sent ++ [req] ∧
        ((∃ err, w.roundTrip st.sent.length req = .error err ∧
            (processPayload w es st p).logs = st.logs ++ [.unableToWrite err]) ∨
         (∃ resp, w.roundTrip st.sent.length req = .ok resp ∧ resp.statusCode = 201 ∧
            (processPayload w es st p).logs = st.logs) ∨
         (∃ resp err, w.roundTrip st.sent.length req = .ok resp ∧ resp.statusCode ≠ 201 ∧
            w.decodeBody resp.body = .error err ∧
            (processPayload w es st p).logs = st.logs ++ [.unableToDecode err]) ∨
         (∃ resp rdata, w.roundTrip st.sent.length req = .ok resp ∧ resp.statusCode ≠ 201 ∧
            w.decodeBody resp.body = .ok rdata ∧
            (processPayload w es st p).logs =
              st.logs ++ [.unexpectedStatus resp.statusCode rdata]))) := by
  refine ⟨?_, ?_, ?_⟩
  · intro err hm
    simp [processPayload, hm]
  · intro body err hm hu
    simp [processPayload, hm, NewRequest, hu]
  · intro body hm hu
    refine ⟨_, processPayload_sent w es st p body hm hu, ?_⟩
    unfold processPayload
    simp only [hm, NewRequest, hu, headerSet]
    rcases hr : w.roundTrip st.sent.length
      { method := str "POST", url := targetURL es p,
        header := [(str "Content-Type", str "application/json")], body := body }
      with err | resp
    · exact Or.inl ⟨err, rfl, rfl⟩
    · by_cases hs : resp.statusCode = 201
      · exact Or.inr (Or.inl ⟨resp, rfl, hs, by simp [hs]⟩)
      · rcases hd : w.decodeBody resp.body with err | rdata
        · exact Or.inr (Or.inr (Or.inl ⟨resp, err, rfl, hs, hd, by simp [hs, hd]⟩))
        · exact Or.inr (Or.inr (Or.inr ⟨resp, rdata, rfl, hs, hd, by simp [hs, hd]⟩))

theorem str_slash_logstash : str "/logstash-" = str "/" ++ str "logstash-" := by decide

theorem str_slash_logs : str "/" ++ str "logs" = str "/logs" := by decide

/-! ## Claims on `process` -/

/-- C6: for a payload whose fields serialize to `body` and a backend address for which the
request can be constructed, one loop iteration hands exactly one request to the HTTP
client: method `POST`, URL `http://<backend>/<esIndex>/<esType>`, the header `Content-Type:
application/json` and the body `body`. For a payload built by `decode` the URL is
`http://<backend>/logstash-<date>/logs` with the date of the clock reading in the layout
`2006.01.02`, which is `YYYY.MM.DD` for a year of at most four digits. -/
theorem process_posts_payload (w : World) (es : GoString) (st : WorkerState) (p : payload)
    (body : List Byte) (hm : w.marshal p.data = .ok body)
    (hu : w.parseURL (targetURL es p) = none) :
    (processPayload w es st p).sent = st.sent ++
      [{ method := str "POST",
         url := str "http://" ++ es ++ str "/" ++ p.esIndex ++ str "/" ++ p.esType,
         header := [(str "Content-Type", str "application/json")], body := body }] ∧
    (∀ host buf nowIndex nowStamp, decode host buf nowIndex nowStamp = .ok p →
      str "http://" ++ es ++ str "/" ++ p.esIndex ++ str "/" ++ p.esType =
        str "http://" ++ es ++ str "/logstash-" ++ nowIndex.Format .dotDate ++ str "/logs" ∧
      (0 ≤ nowIndex.year → nowIndex.year ≤ 9999 → nowIndex.month ≤ 12 → nowIndex.day ≤ 31 →
        str "http://" ++ es ++ str "/" ++ p.esIndex ++ str "/" ++ p.esType =
          str "http://" ++ es ++ str "/logstash-" ++
            specDate nowIndex.year.toNat nowIndex.month nowIndex.day ++ str "/logs")) := by
  refine ⟨processPayload_sent w es st p body hm hu, ?_⟩
  intro host buf nowIndex nowStamp hd
  rcases decode_index host buf nowIndex nowStamp with ⟨_, hp⟩ | ⟨q, hq, ht, hi, hs⟩
  · rw [hp] at hd
    cases hd
  · rw [hq] at hd
    injection hd with hd
    subst hd
    refine ⟨?_, ?_⟩
    · rw [ht, hi, str_slash_logstash]
      simp [List.append_assoc, str_slash_logs]
    · intro hy0 hy hmo hda
      rw [ht, hs hy0 hy hmo hda, str_slash_logstash]
      simp [List.append_assoc, str_slash_logs]

/-- C6 for the payload of the datagram `hello`, a world that answers 201 and the backend
`127.0.0.1:9200`: the request goes to `http://127.0.0.1:9200/logstash-2024.01.01/logs`. -/
theorem process_posts_payload_witness :
    decode (str "10.0.0.5") (str "hello") newYear2024 newYear2024 = .ok samplePayload ∧
    (processPayload (sampleWorld 201 []) (str "127.0.0.1:9200") WorkerState.init
        samplePayload).sent =
      [{ method := str "POST", url := str "http://127.0.0.1:9200/logstash-2024.01.01/logs",
         header := [(str "Content-Type", str "application/json")], body := str "\x7b\x7d" }] :=
  ⟨rfl, by
    rw [(process_posts_payload (sampleWorld 201 []) (str "127.0.0.1:9200") WorkerState.init
      samplePayload (str "\x7b\x7d") rfl (by decide)).1]
    decide⟩

/-- C8, the path on which `process` fails the claim: when `http.NewRequest` fails (the
backend address `es host:9200` has a space, which `url.Parse` rejects), the payload is
dropped by a bare `continue`: nothing is logged and no request is issued. The sibling
failure paths log: a failed `json.Marshal` and a failed transport each add one entry. -/
theorem process_request_failure_not_logged :
    (sampleWorld 201 []).parseURL (targetURL (str "es host:9200") samplePayload) =
      some (str "invalid character in host name") ∧
    (processPayload (sampleWorld 201 []) (str "es host:9200") WorkerState.init
      samplePayload).logs.length = 0 ∧
    (processPayload (sampleWorld 201 []) (str "es host:9200") WorkerState.init
      samplePayload).sent = [] :=
  ⟨by decide, rfl, rfl⟩

/-- C9, the run on which `process` fails the claim: `defer resp.Body.Close()` runs when
`process` returns, not at the end of the loop iteration, so after one delivered payload
(status 201, status 500 with a JSON body, or status 500 with an undecodable body) one body
is open at the start of the next iteration, and after two payloads two are. -/
theorem process_bodies_stay_open :
    (processLoop (sampleWorld 201 []) (str "127.0.0.1:9200") WorkerState.init
      [samplePayload]).openBodies = 1 ∧
    (processLoop (sampleWorld 500 (str "\x7b\"error\":\"mapper_parsing_exception\"\x7d"))
      (str "127.0.0.1:9200") WorkerState.init [samplePayload]).openBodies = 1 ∧
    (processLoop (sampleWorld 500 (str "Internal Server Error")) (str "127.0.0.1:9200")
      WorkerState.init [samplePayload]).openBodies = 1 ∧
    (processLoop (sampleWorld 201 []) (str "127.0.0.1:9200") WorkerState.init
      [samplePayload, samplePayload]).openBodies = 2 :=
  ⟨rfl, rfl, rfl, rfl⟩

/-! ## The queue invariant -/

theorem System.Inv_init (w : World) (es : GoString) : System.Inv w es System.init := by
  refine ⟨rfl, ?_, rfl⟩
  simp [System.init]

theorem System.Inv_step (w : World) (es : GoString) (s s' : System) (a : Action)
    (hinv : System.Inv w es s) (h : s.step w es a = some s') : System.Inv w es s' := by
  obtain ⟨h1, h2, h3⟩ := hinv
  cases a with
  | datagram peer buf nowIndex nowStamp =>
    simp only [System.step] at h
    split at h
    · cases h
    · split at h
      · cases h
      · split at h
        · rename_i hlt
          injection h with h
          subst h
          refine ⟨?_, ?_, h3⟩
          · simp [h1]
          · simp only [List.length_append, List.length_singleton]
            exact hlt
        · cases h
  | deliver =>
    simp only [System.step] at h
    split at h
    · cases h
    · rename_i p rest hq
      injection h with h
      subst h
      refine ⟨?_, ?_, ?_⟩
      · simp [h1, hq]
      · rw [hq] at h2
        simp only [List.length_cons] at h2
        exact Nat.le_of_succ_le h2
      · simp only [processLoop] at h3 ⊢
        rw [List.foldl_append, ← h3]
        rfl

theorem System.Inv_run (w : World) (es : GoString) (acts : List Action) :
    ∀ s s', System.Inv w es s → System.run w es s acts = some s' → System.Inv w es s' := by
  induction acts with
  | nil =>
    intro s s' hinv h
    simp only [System.run] at h
    injection h with h
    subst h
    exact hinv
  | cons a acts ih =>
    intro s s' hinv h
    simp only [System.run] at h
    split at h
    · cases h
    · rename_i s₁ hs
      exact ih s₁ s' (System.Inv_step w es s s₁ a hinv hs) h

/-- C7: in every state the program reaches, the payloads the worker has received are a
prefix of the payloads `decode` has sent, in the same order, the content of the channel is
exactly the rest of them in order (so none is received twice or skipped), the channel
holds at most 10000 payloads, and the worker has processed the received payloads in that
order. -/
theorem queue_fifo (w : World) (es : GoString) (acts : List Action) (s : System)
    (h : System.run w es System.init acts = some s) :
    s.enqueued = s.dequeued ++ s.queue ∧ s.dequeued <+: s.enqueued ∧
      s.queue.length ≤ 10000 ∧ s.worker = processLoop w es WorkerState.init s.dequeued := by
  obtain ⟨h1, h2, h3⟩ := System.Inv_run w es acts System.init s (System.Inv_init w es) h
  exact ⟨h1, ⟨s.queue, h1.symm⟩, h2, h3⟩

/-- C7 on a run: two datagrams arrive, then the worker receives the first payload. -/
theorem queue_fifo_witness :
    System.run (sampleWorld 201 []) (str "127.0.0.1:9200") System.init sampleActions =
      some sampleFinal ∧
    (sampleFinal.enqueued = sampleFinal.dequeued ++ sampleFinal.queue ∧
      sampleFinal.dequeued <+: sampleFinal.enqueued ∧ sampleFinal.queue.length ≤ 10000 ∧
      sampleFinal.worker = processLoop (sampleWorld 201 []) (str "127.0.0.1:9200")
        WorkerState.init sampleFinal.dequeued) :=
  ⟨rfl, queue_fifo (sampleWorld 201 []) (str "127.0.0.1:9200") sampleActions sampleFinal rfl⟩
end Truck
